import Mathlib

/-!
Verification of the command-dispatch layer of `revolt.py`
(`revolt/ext/commands/client.py`): the name/alias registry backed by `dict` /
`CaseInsensitiveDict`, command discovery via `CommandsMeta`, the
`process_commands` invocation pipeline, and the extension loader.

Python `dict[str, Command]` is modelled as an insertion-ordered association
list: `__setitem__` replaces the value in place when the key is present and
appends otherwise, `__getitem__`/`get` return the value of the unique entry
with the key, and `pop` removes that entry and returns its value.  Exceptions
are modelled with `Option`/explicit error values.
-/

namespace Revolt

/-- A command object (`Command` from command.py is an external collaborator here;
`client.py` only reads `name` and `aliases`).  The `id` field stands for
Python object identity, so two distinct command objects may share a name. -/
structure Command where
  id : Nat
  name : String
  aliases : List String
deriving DecidableEq, Repr

/-- Insertion-ordered association-list model of `dict.__setitem__`:
replace in place if the key is present, else append at the end. -/
def dictSet {α : Type} : List (String × α) → String → α → List (String × α)
  | [], k, v => [(k, v)]
  | (k', v') :: d, k, v =>
      if k' = k then (k, v) :: d else (k', v') :: dictSet d k v

/-- Model of `dict.__getitem__` / `dict.get`: the value stored at the key
(`none` models `KeyError` / the default). -/
def dictGet {α : Type} : List (String × α) → String → Option α
  | [], _ => none
  | (k', v') :: d, k => if k' = k then some v' else dictGet d k

/-- Model of `dict.pop(key, None)`: the removed value (if any) and the
remaining dict. -/
def dictPop {α : Type} : List (String × α) → String → Option α × List (String × α)
  | [], _ => (none, [])
  | (k', v') :: d, k =>
      if k' = k then (some v', d)
      else
        let r := dictPop d k
        (r.1, (k', v') :: r.2)

/-- Dicts built by the registry operations never store a key twice. -/
def nodupKeys {α : Type} (d : List (String × α)) : Prop :=
  (d.map Prod.fst).Nodup

theorem dictGet_dictSet {α : Type} (d : List (String × α)) (k q : String) (v : α) :
    dictGet (dictSet d k v) q = if q = k then some v else dictGet d q := by
  induction d with
  | nil =>
      by_cases h : q = k
      · subst h; simp [dictSet, dictGet]
      · simp [dictSet, dictGet, h, Ne.symm h]
  | cons hd tl ih =>
      obtain ⟨k', v'⟩ := hd
      by_cases h1 : k' = k
      · subst h1
        by_cases h2 : q = k'
        · subst h2; simp [dictSet, dictGet]
        · simp [dictSet, dictGet, h2, Ne.symm h2]
      · by_cases h2 : q = k'
        · subst h2
          have h3 : ¬q = k := fun h => h1 (h ▸ rfl)
          simp [dictSet, dictGet, h1, h3]
        · simp [dictSet, dictGet, h1, h2, Ne.symm h2, ih]

theorem dictGet_eq_none_of_not_mem {α : Type} (d : List (String × α)) (k : String)
    (h : k ∉ d.map Prod.fst) : dictGet d k = none := by
  induction d with
  | nil => rfl
  | cons hd tl ih =>
      obtain ⟨k', v'⟩ := hd
      simp only [List.map_cons, List.mem_cons] at h
      push_neg at h
      simp [dictGet, Ne.symm h.1, ih h.2]

theorem dictPop_sublist {α : Type} (d : List (String × α)) (k : String) :
    (dictPop d k).2.Sublist d := by
  induction d with
  | nil => simp [dictPop]
  | cons hd tl ih =>
      obtain ⟨k', v'⟩ := hd
      by_cases h : k' = k
      · simp [dictPop, h]
      · simpa [dictPop, h] using ih

theorem nodupKeys_dictPop {α : Type} (d : List (String × α)) (k : String)
    (h : nodupKeys d) : nodupKeys (dictPop d k).2 :=
  List.Nodup.sublist (List.Sublist.map Prod.fst (dictPop_sublist d k)) h

theorem dictGet_dictPop {α : Type} (d : List (String × α)) (k q : String)
    (h : nodupKeys d) :
    dictGet (dictPop d k).2 q = if q = k then none else dictGet d q := by
  induction d with
  | nil => by_cases hq : q = k <;> simp [dictPop, dictGet, hq]
  | cons hd tl ih =>
      obtain ⟨k', v'⟩ := hd
      have hmap : (k' :: tl.map Prod.fst).Nodup := by simpa [nodupKeys] using h
      have hhd : k' ∉ tl.map Prod.fst := (List.nodup_cons.mp hmap).1
      have hnd : nodupKeys tl := (List.nodup_cons.mp hmap).2
      by_cases h1 : k' = k
      · subst h1
        by_cases hq : q = k'
        · subst hq
          simp [dictPop, dictGet, dictGet_eq_none_of_not_mem tl q hhd]
        · simp [dictPop, dictGet, Ne.symm hq, hq]
      · by_cases hq : q = k'
        · subst hq
          have h3 : ¬q = k := fun hx => h1 (hx ▸ rfl)
          simp [dictPop, dictGet, h1, h3]
        · simp [dictPop, dictGet, h1, hq, Ne.symm hq, ih hnd]

theorem dictGet_foldl_dictSet {α : Type} (t : String → String) (c : α)
    (ks : List String) (d : List (String × α)) (q : String) :
    dictGet (ks.foldl (fun d a => dictSet d (t a) c) d) q
      = if q ∈ ks.map t then some c else dictGet d q := by
  induction ks generalizing d with
  | nil => simp
  | cons a ks ih =>
      simp only [List.foldl_cons, List.map_cons, List.mem_cons]
      rw [ih]
      by_cases h1 : q ∈ ks.map t
      · simp [h1]
      · by_cases h2 : q = t a <;> simp [h1, h2, dictGet_dictSet]

theorem nodupKeys_dictSet {α : Type} (d : List (String × α)) (k : String) (v : α)
    (h : nodupKeys d) : nodupKeys (dictSet d k v) := by
  induction d with
  | nil => simp [dictSet, nodupKeys]
  | cons hd tl ih =>
      obtain ⟨k', v'⟩ := hd
      have hmap : (k' :: tl.map Prod.fst).Nodup := by simpa [nodupKeys] using h
      have hhd : k' ∉ tl.map Prod.fst := (List.nodup_cons.mp hmap).1
      have hnd : nodupKeys tl := (List.nodup_cons.mp hmap).2
      by_cases h1 : k' = k
      · subst h1
        simpa [dictSet, nodupKeys] using List.nodup_cons.mpr ⟨hhd, hnd⟩
      · have htl := ih hnd
        have hkeys : ∀ q, q ∈ (dictSet tl k v).map Prod.fst → q = k ∨ q ∈ tl.map Prod.fst := by
          intro q hq
          clear htl hnd hhd hmap h ih
          induction tl with
          | nil => simpa [dictSet] using hq
          | cons hd2 tl2 ih2 =>
              obtain ⟨k2, v2⟩ := hd2
              by_cases h2 : k2 = k
              · subst h2
                simpa [dictSet] using hq
              · simp only [dictSet, h2, if_false, List.map_cons, List.mem_cons] at hq
                rcases hq with hq | hq
                · simp [hq]
                · rcases ih2 hq with hq2 | hq2
                  · exact Or.inl hq2
                  · simp [hq2]
        have hk' : k' ∉ (dictSet tl k v).map Prod.fst := by
          intro hmem
          rcases hkeys k' hmem with hx | hx
          · exact h1 hx
          · exact hhd hx
        simpa [dictSet, h1, nodupKeys] using List.nodup_cons.mpr ⟨hk', htl⟩

theorem dictGet_foldl_dictPop {α : Type} (t : String → String)
    (ks : List String) (d : List (String × α)) (q : String) (h : nodupKeys d) :
    dictGet (ks.foldl (fun d a => (dictPop d (t a)).2) d) q
      = if q ∈ ks.map t then none else dictGet d q := by
  induction ks generalizing d with
  | nil => simp
  | cons a ks ih =>
      simp only [List.foldl_cons, List.map_cons, List.mem_cons]
      rw [ih _ (nodupKeys_dictPop d (t a) h)]
      by_cases h1 : q ∈ ks.map t
      · simp [h1]
      · by_cases h2 : q = t a <;> simp [h1, h2, dictGet_dictPop _ _ _ h]

/-- ASCII case folding of one character.  Python `str.casefold` performs full
Unicode case folding; every key in this development is ASCII, where casefold
coincides with this lowercasing map. -/
def foldChar (c : Char) : Char :=
  if 'A' ≤ c ∧ c ≤ 'Z' then Char.ofNat (c.toNat + 32) else c

/-- Model of Python `str.casefold` (restricted to ASCII, see `foldChar`). -/
def casefold (s : String) : String :=
  String.mk (s.data.map foldChar)

/-- The registry dictionary `CommandsClient.all_commands`: a plain `dict` when
`case_insensitive` is false and a `CaseInsensitiveDict` when it is true.
`CaseInsensitiveDict` overrides `__setitem__`, `__getitem__`, `__contains__`,
`get` and `__delitem__` to casefold the key; every other `dict` method
(notably `pop` and `values`) is inherited unchanged. -/
structure Registry where
  case_insensitive : Bool
  entries : List (String × Command)
deriving DecidableEq, Repr

/-- The key actually stored/compared for a dictionary with the given
case-insensitivity: the overridden methods apply `casefold` first. -/
def keyFn (ci : Bool) (k : String) : String :=
  if ci then casefold k else k

def Registry.key (r : Registry) (k : String) : String :=
  keyFn r.case_insensitive k

/-- `all_commands[key] = value` (`dict.__setitem__`, casefolded when
case-insensitive). -/
def Registry.setitem (r : Registry) (k : String) (v : Command) : Registry :=
  { r with entries := dictSet r.entries (r.key k) v }

/-- `all_commands[key]` (`dict.__getitem__`, casefolded when case-insensitive);
`none` models `KeyError`. -/
def Registry.getitem (r : Registry) (k : String) : Option Command :=
  dictGet r.entries (r.key k)

/-- `key in all_commands` (`dict.__contains__`, casefolded when
case-insensitive). -/
def Registry.contains (r : Registry) (k : String) : Bool :=
  (dictGet r.entries (r.key k)).isSome

/-- `del all_commands[key]` (`dict.__delitem__`, casefolded when
case-insensitive).  Note: `client.py` never calls this; `remove_command`
uses `pop` instead. -/
def Registry.delitem (r : Registry) (k : String) : Registry :=
  { r with entries := (dictPop r.entries (r.key k)).2 }

/-- `all_commands.pop(key, None)`.  `CaseInsensitiveDict` does NOT override
`dict.pop`, so the key is used verbatim, without case folding, even when the
registry is case-insensitive. -/
def Registry.pop (r : Registry) (k : String) : Option Command × Registry :=
  ((dictPop r.entries k).1, { r with entries := (dictPop r.entries k).2 })

/-- `CommandsClient.add_command` (also the per-command body of the seeding
loop in `CommandsClient.__init__`): store the command under its name, then
under each alias, each write overwriting silently. -/
def add_command (r : Registry) (c : Command) : Registry :=
  c.aliases.foldl (fun r a => r.setitem a c) (r.setitem c.name c)

/-- `CommandsClient.get_command`: `self.all_commands[name]`; `none` models the
`KeyError` escaping on a missing key. -/
def get_command (r : Registry) (name : String) : Option Command :=
  r.getitem name

/-- `CommandsClient.remove_command`: `pop(name, None)`; when a command was
found, additionally `pop(alias, None)` for each of its aliases.  The popped
command and the resulting registry. -/
def remove_command (r : Registry) (name : String) : Option Command × Registry :=
  match r.pop name with
  | (none, r') => (none, r')
  | (some c, r') => (some c, c.aliases.foldl (fun r a => (r.pop a).2) r')

/-- `CommandsClient.commands`: `list(set(self.all_commands.values()))` — the
distinct command objects currently stored (order irrelevant: membership is
what the claims use). -/
def commands (r : Registry) : List Command :=
  (r.entries.map Prod.snd).dedup

theorem case_insensitive_setitem (r : Registry) (k : String) (v : Command) :
    (r.setitem k v).case_insensitive = r.case_insensitive := rfl

theorem key_setitem (r : Registry) (k q : String) (v : Command) :
    (r.setitem k v).key q = r.key q := rfl

theorem entries_foldl_setitem (c : Command) (ks : List String) (r : Registry) :
    ks.foldl (fun r a => Registry.setitem r a c) r
      = { r with entries :=
            ks.foldl (fun d a => dictSet d (keyFn r.case_insensitive a) c) r.entries } := by
  induction ks generalizing r with
  | nil => rfl
  | cons a ks ih =>
      simp only [List.foldl_cons]
      rw [ih]
      rfl

theorem get_command_add_command (r : Registry) (c : Command) (q : String) :
    get_command (add_command r c) q
      = if r.key q ∈ (c.name :: c.aliases).map r.key then some c else get_command r q := by
  by_cases hmem : r.key q ∈ (c.name :: c.aliases).map r.key
  · rw [if_pos hmem]
    simp only [List.map_cons, List.mem_cons, List.mem_map, Registry.key] at hmem
    simp only [add_command, get_command, Registry.getitem, Registry.key]
    rw [entries_foldl_setitem]
    simp only [Registry.setitem, Registry.key]
    rw [dictGet_foldl_dictSet, dictGet_dictSet]
    rcases hmem with h | ⟨a, ha, hae⟩
    · by_cases h1 : keyFn r.case_insensitive q ∈ c.aliases.map (keyFn r.case_insensitive) <;>
        simp [h1, h]
    · have h1 : keyFn r.case_insensitive q ∈ c.aliases.map (keyFn r.case_insensitive) :=
        List.mem_map.mpr ⟨a, ha, hae⟩
      simp [h1]
  · rw [if_neg hmem]
    simp only [List.map_cons, List.mem_cons, List.mem_map, Registry.key] at hmem
    push_neg at hmem
    have h1 : keyFn r.case_insensitive q ∉ c.aliases.map (keyFn r.case_insensitive) := by
      intro hx
      obtain ⟨a, ha, hae⟩ := List.mem_map.mp hx
      exact hmem.2 a ha hae
    simp only [add_command, get_command, Registry.getitem, Registry.key]
    rw [entries_foldl_setitem]
    simp only [Registry.setitem, Registry.key]
    rw [dictGet_foldl_dictSet, dictGet_dictSet]
    simp [h1, hmem.1]

theorem mem_commands (r : Registry) (c : Command) :
    c ∈ commands r ↔ ∃ k, (k, c) ∈ r.entries := by
  simp only [commands, List.mem_dedup, List.mem_map]
  constructor
  · rintro ⟨⟨k, v⟩, hmem, rfl⟩
    exact ⟨k, hmem⟩
  · rintro ⟨k, hmem⟩
    exact ⟨(k, c), hmem, rfl⟩

theorem mem_of_dictGet_eq_some {α : Type} (d : List (String × α)) (k : String) (v : α)
    (h : dictGet d k = some v) : (k, v) ∈ d := by
  induction d with
  | nil => simp [dictGet] at h
  | cons hd tl ih =>
      obtain ⟨k', v'⟩ := hd
      by_cases h1 : k' = k
      · subst h1
        simp only [dictGet, if_pos rfl] at h
        cases h
        exact List.mem_cons_self _ _
      · simp only [dictGet, if_neg h1] at h
        exact List.mem_cons_of_mem _ (ih h)

theorem case_insensitive_add_command (r : Registry) (c : Command) :
    (add_command r c).case_insensitive = r.case_insensitive := by
  rw [add_command, entries_foldl_setitem]
  rfl

theorem key_add_command (r : Registry) (c : Command) :
    (add_command r c).key = r.key := by
  funext q
  simp [Registry.key, case_insensitive_add_command]

theorem find?_congr {α : Type} (l : List α) (p q : α → Bool)
    (h : ∀ a, p a = q a) : l.find? p = l.find? q := by
  induction l with
  | nil => rfl
  | cons a l ih => simp [List.find?, h a, ih]

theorem keyFn_false (k : String) : keyFn false k = k := rfl

/-- `CommandsMeta.__new__` attribute values: a class body's `__dict__.values()`
entry is either a `Command` object or some other attribute. -/
inductive ClassAttr where
  | cmd (c : Command)
  | attr (tag : Nat)
deriving DecidableEq, Repr

/-- The commands declared in one class body, in declaration order
(the `isinstance(value, Command)` filter of `CommandsMeta.__new__`). -/
def attrCommands (layer : List ClassAttr) : List Command :=
  layer.filterMap (fun a => match a with | .cmd c => some c | .attr _ => none)

/-- `CommandsMeta.__new__`: walk `reversed(self.__mro__)` — the classes from
least-derived to most-derived — and append every `Command`-valued attribute,
producing the ordered `_commands` list. -/
def discover_commands (mroRev : List (List ClassAttr)) : List Command :=
  mroRev.foldl (fun cmds layer => cmds ++ attrCommands layer) []

/-- The seeding loop of `CommandsClient.__init__` (lines 76–80): for each
discovered command, write its name and then each alias into `all_commands`;
each write is exactly the body of `add_command`. -/
def seed_commands (r : Registry) (cmds : List Command) : Registry :=
  cmds.foldl add_command r

/-- Which command a key resolves to after seeding: the LAST command in the
list that has the key among its (folded) name/aliases — last write wins. -/
def lastRegistered (t : String → String) (cmds : List Command) (q : String) : Option Command :=
  cmds.reverse.find? (fun c => decide (t q ∈ (c.name :: c.aliases).map t))

theorem get_command_seed_commands (cmds : List Command) (r : Registry) (q : String) :
    get_command (seed_commands r cmds) q
      = match lastRegistered r.key cmds q with
        | some c => some c
        | none => get_command r q := by
  induction cmds generalizing r with
  | nil => rfl
  | cons c cs ih =>
      have hkey : (add_command r c).key = r.key := key_add_command r c
      have ihc := ih (add_command r c)
      simp only [seed_commands, List.foldl_cons] at ihc ⊢
      rw [ihc, hkey]
      simp only [lastRegistered, List.reverse_cons, List.find?_append]
      rcases hfind : cs.reverse.find?
          (fun c => decide (r.key q ∈ (c.name :: c.aliases).map r.key)) with _ | c'
      · rw [hfind]
        simp only [Option.none_or]
        rw [get_command_add_command]
        by_cases hc : r.key q ∈ (c.name :: c.aliases).map r.key
        · simp only [List.map_cons, List.mem_cons, List.mem_map] at hc
          rcases hc with h | h <;> simp [h]
        · have hc2 : ¬(r.key q = r.key c.name ∨ ∃ a ∈ c.aliases, r.key a = r.key q) := by
            simpa [List.mem_cons, List.mem_map] using hc
          have hA : ¬(r.key q = r.key c.name) := fun h => hc2 (Or.inl h)
          have hB : ¬(∃ a ∈ c.aliases, r.key a = r.key q) := fun h => hc2 (Or.inr h)
          simp [hA, hB]
      · rw [hfind]
        simp [Option.or]

theorem mem_commands_of_get (r : Registry) (q : String) (c : Command)
    (h : get_command r q = some c) : c ∈ commands r := by
  rw [mem_commands]
  exact ⟨r.key q, mem_of_dictGet_eq_some _ _ _ h⟩

/-- C1: the claim says `remove_command` on an alias also removes the canonical
name.  The code does not: it pops the given key and then pops every alias of
the found command, but never pops `command.name`.  Concretely, for a command
named "foo" with aliases ["bar", "baz"], after `remove_command("bar")` the
command is returned and both aliases are gone, yet `get_command("foo")` still
returns the command instead of failing with not-found. -/
theorem c1_remove_by_alias_keeps_name :
    (remove_command (add_command ⟨false, []⟩ ⟨1, "foo", ["bar", "baz"]⟩) "bar").1
        = some ⟨1, "foo", ["bar", "baz"]⟩
    ∧ get_command
        (remove_command (add_command ⟨false, []⟩ ⟨1, "foo", ["bar", "baz"]⟩) "bar").2 "foo"
        = some ⟨1, "foo", ["bar", "baz"]⟩
    ∧ get_command
        (remove_command (add_command ⟨false, []⟩ ⟨1, "foo", ["bar", "baz"]⟩) "bar").2 "bar"
        = none
    ∧ get_command
        (remove_command (add_command ⟨false, []⟩ ⟨1, "foo", ["bar", "baz"]⟩) "bar").2 "baz"
        = none := by
  decide

/-- C2 counterexample: `remove_command` does not case-fold.  In a
case-insensitive registry, after `add_command` of a command named "Ping"
(stored under the folded key "ping"), `remove_command("PING")` goes through
`dict.pop`, which `CaseInsensitiveDict` does not override, finds nothing and
deletes nothing: the entry survives and lookups still succeed. -/
theorem c2_counterexample :
    remove_command (add_command ⟨true, []⟩ ⟨1, "Ping", []⟩) "PING"
        = (none, add_command ⟨true, []⟩ ⟨1, "Ping", []⟩)
    ∧ get_command (remove_command (add_command ⟨true, []⟩ ⟨1, "Ping", []⟩) "PING").2 "Ping"
        = some ⟨1, "Ping", []⟩ := by
  decide

/-- C2 (amended): in a case-insensitive registry the overridden dict
operations — insert (`__setitem__`, hence `add_command`), lookup
(`__getitem__`, hence `get_command`), `__contains__`, and the class's own
delete `__delitem__` — case-fold the key, so any two case variants of a key
behave identically; after `add_command` of a command named "Ping",
`get_command("PING")` returns the same object, while a case-sensitive
registry rejects that lookup.  Deletion through `remove_command`, however,
uses `dict.pop`, which is not overridden and does not case-fold: only the
exact stored (case-folded) key deletes the entry — `remove_command("PING")`
is a no-op while `remove_command("ping")` deletes. -/
theorem c2_amended_casefold_ops (r : Registry) (k₁ k₂ : String) (v : Command)
    (hci : r.case_insensitive = true) (hfold : casefold k₁ = casefold k₂) :
    r.setitem k₁ v = r.setitem k₂ v
    ∧ r.getitem k₁ = r.getitem k₂
    ∧ r.contains k₁ = r.contains k₂
    ∧ r.delitem k₁ = r.delitem k₂
    ∧ get_command r k₁ = get_command r k₂
    ∧ get_command (add_command ⟨true, []⟩ ⟨1, "Ping", []⟩) "PING" = some ⟨1, "Ping", []⟩
    ∧ get_command (add_command ⟨false, []⟩ ⟨1, "Ping", []⟩) "PING" = none
    ∧ remove_command (add_command ⟨true, []⟩ ⟨1, "Ping", []⟩) "PING"
        = (none, add_command ⟨true, []⟩ ⟨1, "Ping", []⟩)
    ∧ (remove_command (add_command ⟨true, []⟩ ⟨1, "Ping", []⟩) "ping").2.entries = [] := by
  have hkey : r.key k₁ = r.key k₂ := by
    simp [Registry.key, keyFn, hci, hfold]
  refine ⟨?_, ?_, ?_, ?_, ?_, by decide, by decide, by decide, by decide⟩
  · simp [Registry.setitem, hkey]
  · simp [Registry.getitem, hkey]
  · simp [Registry.contains, hkey]
  · simp [Registry.delitem, hkey]
  · simp [get_command, Registry.getitem, hkey]

theorem c2_amended_casefold_ops_witness :
    (Registry.mk true []).getitem "PING" = (Registry.mk true []).getitem "pInG" :=
  (c2_amended_casefold_ops ⟨true, []⟩ "PING" "pInG" ⟨0, "x", []⟩ rfl (by decide)).2.1

/-- C3 counterexample: two alias-free commands under the same name; after the
second registration the first object no longer appears in `commands` (its
only dict key was overwritten), contradicting "the commands list still
contains both underlying command objects". -/
theorem c3_counterexample :
    get_command (add_command (add_command ⟨false, []⟩ ⟨1, "foo", []⟩) ⟨2, "foo", []⟩) "foo"
        = some ⟨2, "foo", []⟩
    ∧ (⟨1, "foo", []⟩ : Command)
        ∉ commands (add_command (add_command ⟨false, []⟩ ⟨1, "foo", []⟩) ⟨2, "foo", []⟩) := by
  decide

/-- C3 (amended): when two commands are registered one after the other, the
second wins every lookup of its name and is in the `commands` list; the first
object remains in the `commands` list only while some key still maps to it —
e.g. an alias of the first not overwritten by the second, through which it is
also still retrievable.  (With no such surviving key the first object drops
out of `commands`, see the counterexample.) -/
theorem c3_amended_second_wins (r : Registry) (c1 c2 : Command) :
    get_command (add_command (add_command r c1) c2) c2.name = some c2
    ∧ c2 ∈ commands (add_command (add_command r c1) c2)
    ∧ ∀ a, a ∈ c1.aliases → r.key a ∉ (c2.name :: c2.aliases).map r.key →
        get_command (add_command (add_command r c1) c2) a = some c1
        ∧ c1 ∈ commands (add_command (add_command r c1) c2)
  := by
  have hwin : get_command (add_command (add_command r c1) c2) c2.name = some c2 := by
    rw [get_command_add_command]
    simp
  refine ⟨hwin, mem_commands_of_get _ _ _ hwin, ?_⟩
  intro a ha hnot
  have hkeep : get_command (add_command (add_command r c1) c2) a = some c1 := by
    rw [get_command_add_command, key_add_command]
    rw [if_neg hnot]
    rw [get_command_add_command]
    have : r.key a ∈ (c1.name :: c1.aliases).map r.key :=
      List.mem_map_of_mem r.key (List.mem_cons_of_mem _ ha)
    rw [if_pos this]
  exact ⟨hkeep, mem_commands_of_get _ _ _ hkeep⟩

theorem c3_amended_second_wins_witness :
    get_command
        (add_command (add_command ⟨false, []⟩ ⟨1, "foo", ["f"]⟩) ⟨2, "foo", []⟩) "f"
        = some ⟨1, "foo", ["f"]⟩
    ∧ (⟨1, "foo", ["f"]⟩ : Command)
        ∈ commands (add_command (add_command ⟨false, []⟩ ⟨1, "foo", ["f"]⟩) ⟨2, "foo", []⟩) :=
  (c3_amended_second_wins ⟨false, []⟩ ⟨1, "foo", ["f"]⟩ ⟨2, "foo", []⟩).2.2
    "f" (by decide) (by decide)

theorem map_keyFn_false (ks : List String) : ks.map (keyFn false) = ks := by
  induction ks with
  | nil => rfl
  | cons k ks ih => simp [keyFn_false, ih]

/-- C8: discovery walks the MRO from least-derived to most-derived base, so
the discovered list places base-class declarations before derived ones, and
both objects stay distinct in it; seeding the registry from that list is
last-write-wins, so when the derived command is the last declaration carrying
a given name, the lookup of that name yields it, replacing the base one. -/
theorem c8_discovery_last_write_wins (l1 l2 : List ClassAttr) (cb cd : Command) (n : String)
    (hb : cb ∈ attrCommands l1) (hd : cd ∈ attrCommands l2)
    (hlast : (attrCommands l1 ++ attrCommands l2).reverse.find?
        (fun c => decide (n ∈ c.name :: c.aliases)) = some cd) :
    discover_commands [l1, l2] = attrCommands l1 ++ attrCommands l2
    ∧ cb ∈ discover_commands [l1, l2]
    ∧ cd ∈ discover_commands [l1, l2]
    ∧ get_command (seed_commands ⟨false, []⟩ (discover_commands [l1, l2])) n = some cd := by
  have hdisc : discover_commands [l1, l2] = attrCommands l1 ++ attrCommands l2 := by
    simp [discover_commands]
  refine ⟨hdisc, ?_, ?_, ?_⟩
  · rw [hdisc]
    exact List.mem_append_left _ hb
  · rw [hdisc]
    exact List.mem_append_right _ hd
  · rw [get_command_seed_commands]
    have hpred : ∀ c : Command,
        (decide ((Registry.mk false []).key n
            ∈ (c.name :: c.aliases).map (Registry.mk false []).key))
          = decide (n ∈ c.name :: c.aliases) := by
      intro c
      have h1 : Registry.key ⟨false, []⟩ = keyFn false := rfl
      rw [h1, map_keyFn_false, keyFn_false]
    rw [lastRegistered, find?_congr _ _ _ hpred, hdisc, hlast]

theorem c8_discovery_last_write_wins_witness :
    discover_commands [[ClassAttr.cmd ⟨1, "greet", []⟩, ClassAttr.attr 0],
        [ClassAttr.cmd ⟨2, "greet", []⟩]]
      = [⟨1, "greet", []⟩, ⟨2, "greet", []⟩]
    ∧ get_command
        (seed_commands ⟨false, []⟩
          (discover_commands [[ClassAttr.cmd ⟨1, "greet", []⟩, ClassAttr.attr 0],
            [ClassAttr.cmd ⟨2, "greet", []⟩]])) "greet"
      = some ⟨2, "greet", []⟩ := by
  have h := c8_discovery_last_write_wins
    [ClassAttr.cmd ⟨1, "greet", []⟩, ClassAttr.attr 0]
    [ClassAttr.cmd ⟨2, "greet", []⟩]
    ⟨1, "greet", []⟩ ⟨2, "greet", []⟩ "greet"
    (by decide) (by decide) (by decide)
  exact ⟨by decide, h.2.2.2⟩

deriving instance DecidableEq for Except

/-- Exceptions visible to the dispatch layer (`errors.py` constructors plus
arbitrary user exceptions, tagged). -/
inductive PyError where
  | checkError (msg : String)
  | commandNotFound (name : String)
  | missingSetup (name : String)
  | importError (name : String)
  | exn (tag : Nat)
deriving DecidableEq, Repr

/-- `message.content`: `process_commands` first checks
`isinstance(content, str)`; non-string payloads are tagged opaquely. -/
inductive MsgContent where
  | text (s : String)
  | nonText (tag : Nat)
deriving DecidableEq, Repr

/-- The per-invocation `Context(command, command_name, view, message, self)`
(context.py is a collaborator).  The message and client are fixed throughout
a run, so the model keeps the fields the claims observe: the located command
(`none` on a lookup miss), the extracted command name, and the tokenizer
remainder. -/
structure Ctx where
  command : Option Command
  command_name : String
  view_rest : String
deriving DecidableEq, Repr

/-- Observable effects of one `process_commands` run, in emission order:
`dispatch("command", ctx)`, entry into `context.invoke()`,
`dispatch("after_command_invoke", ctx, output)`,
`command._error_handler(owner, ctx, e)`, and
`dispatch("command_error", ctx, e)`. -/
inductive Event where
  | commandDispatch (ctx : Ctx)
  | handlerInvoked (ctx : Ctx)
  | afterCommandInvoke (ctx : Ctx) (output : Nat)
  | errorHandlerCalled (ctx : Ctx) (e : PyError)
  | commandErrorDispatch (ctx : Ctx) (e : PyError)
deriving DecidableEq, Repr

/-- Results of the awaited collaborator calls during one run: `get_prefix`
(a single string or a list), `self.bot_check(ctx)`, `context.can_run()` and
`context.invoke()` (handler outputs abstracted as naturals); each of the
last three either returns a value or raises. -/
structure PipelineEnv where
  prefixes : Sum String (List String)
  botCheck : Except PyError Bool
  canRun : Except PyError Bool
  invokeResult : Except PyError Nat
deriving DecidableEq, Repr

/-- Python `content.startswith(p)` (code-point-wise). -/
def pyStartsWith (s p : String) : Bool :=
  p.data.isPrefixOf s.data

/-- Python slicing `s[n:]` (`n` counts code points, as Python indexes do). -/
def pyDrop (s : String) (n : Nat) : String :=
  String.mk (s.data.drop n)

/-- Python `len(s)`. -/
def pyLen (s : String) : Nat :=
  s.data.length

/-- Modelled from the spec: `StringView.get_next_word` (view.py, not under
src).  The spec's tokenizer "extracts the first whitespace-delimited word as
the candidate command name; if the tokenizer reports no word available
(e.g., the body is only whitespace), dispatch terminates quietly" — so it
skips leading whitespace and signals end-of-input (`StopIteration`, modelled
as `none`) when nothing remains, else yields the word and the remaining
view. -/
def get_next_word (s : String) : Option (String × String) :=
  match s.data.dropWhile Char.isWhitespace with
  | [] => none
  | c :: cs =>
      some (String.mk ((c :: cs).takeWhile (fun ch => !ch.isWhitespace)),
            String.mk ((c :: cs).dropWhile (fun ch => !ch.isWhitespace)))

/-- `if isinstance(prefixes, str): prefixes = [prefixes]` — a single string
is one candidate. -/
def prefixList : Sum String (List String) → List String
  | .inl p => [p]
  | .inr l => l

/-- The candidate loop of `process_commands`: `for prefix in prefixes: if
content.startswith(prefix): ... break / else: return` — the first candidate
the content starts with, `none` when no candidate matches. -/
def prefixMatch : List String → String → Option String
  | [], _ => none
  | p :: ps, content =>
      if pyStartsWith content p then some p else prefixMatch ps content

/-- The body of the `try:` block after `dispatch("command", ctx)`:
`bot_check` (False ⇒ `raise CheckError("the global check for the command
failed")`), `context.can_run()` (False ⇒ `raise CheckError("the check(s) for
the command failed")`), then `context.invoke()`.  The trace records whether
the handler was entered. -/
def checks_and_invoke (env : PipelineEnv) (ctx : Ctx) : List Event × Except PyError Nat :=
  match env.botCheck with
  | .error e => ([], .error e)
  | .ok false => ([], .error (.checkError "the global check for the command failed"))
  | .ok true =>
      match env.canRun with
      | .error e => ([], .error e)
      | .ok false => ([], .error (.checkError "the check(s) for the command failed"))
      | .ok true =>
          match env.invokeResult with
          | .error e => ([.handlerInvoked ctx], .error e)
          | .ok out => ([.handlerInvoked ctx], .ok out)

/-- The `try/except` of `process_commands` once a command is located:
`dispatch("command", ctx)` first, then checks and handler; on success
`dispatch("after_command_invoke", ctx, output)` and return the output; on
any exception `await command._error_handler(command.cog or self, ctx, e)`
and then `dispatch("command_error", ctx, e)` — the exception is consumed.
(`command._error_handler` lives in command.py, not under src; the spec's
§4.4 step 9 describes it as a routing call that returns, modelled as the
`errorHandlerCalled` trace event.) -/
def run_located (env : PipelineEnv) (ctx : Ctx) : List Event × Except PyError (Option Nat) :=
  match checks_and_invoke env ctx with
  | (tr, .ok out) =>
      (.commandDispatch ctx :: (tr ++ [.afterCommandInvoke ctx out]), .ok (some out))
  | (tr, .error e) =>
      (.commandDispatch ctx :: (tr ++ [.errorHandlerCalled ctx e, .commandErrorDispatch ctx e]),
        .ok none)

/-- `process_commands` after the matched candidate is stripped: `if not
content: return`; tokenizer exhaustion (`except StopIteration: return`);
registry lookup whose `except KeyError` branch dispatches `command_error`
with `CommandNotFound` on a context bound to no command; else the located
run. -/
def run_stripped (r : Registry) (env : PipelineEnv) (body : String) :
    List Event × Except PyError (Option Nat) :=
  if body.data.isEmpty then ([], .ok none)
  else
    match get_next_word body with
    | none => ([], .ok none)
    | some (w, rest) =>
        match get_command r w with
        | none => ([.commandErrorDispatch ⟨none, w, rest⟩ (.commandNotFound w)], .ok none)
        | some cmd => run_located env ⟨some cmd, w, rest⟩

/-- `CommandsClient.process_commands`: non-string content returns at once;
`get_prefix` result is normalized; the candidate loop strips the first
matching candidate (`else: return` when none matches); the remaining body is
processed by `run_stripped`.  The trace lists the emitted events in order;
the second component is the returned value (`Except.error` would be an
escaping exception). -/
def process_commands (r : Registry) (env : PipelineEnv) (content : MsgContent) :
    List Event × Except PyError (Option Nat) :=
  match content with
  | .nonText _ => ([], .ok none)
  | .text content =>
      match prefixMatch (prefixList env.prefixes) content with
      | none => ([], .ok none)
      | some p => run_stripped r env (pyDrop content (pyLen p))

theorem prefixMatch_some (ps : List String) (s p : String)
    (h : prefixMatch ps s = some p) :
    pyStartsWith s p = true
    ∧ ∃ i, i < ps.length ∧ ps.getD i "" = p
        ∧ ∀ q ∈ ps.take i, pyStartsWith s q = false := by
  induction ps with
  | nil => simp [prefixMatch] at h
  | cons a ps ih =>
      rcases ha : pyStartsWith s a with _ | _
      · rw [prefixMatch, ha] at h
        simp only [Bool.false_eq_true, if_false] at h
        obtain ⟨hp, i, hi, hgd, hall⟩ := ih h
        refine ⟨hp, i + 1, by simpa using hi, by simpa using hgd, ?_⟩
        intro q hq
        rw [List.take_succ_cons] at hq
        rcases List.mem_cons.mp hq with rfl | hmem
        · exact ha
        · exact hall q hmem
      · rw [prefixMatch, ha] at h
        simp only [if_true] at h
        cases h
        exact ⟨ha, 0, by simp, by simp, by simp⟩

theorem pyDrop_append (p rest : String) : pyDrop (p ++ rest) (pyLen p) = rest := by
  show String.mk ((p ++ rest).data.drop p.data.length) = rest
  rw [String.data_append, List.drop_left]

theorem run_stripped_prefixes_irrel (r : Registry) (env : PipelineEnv)
    (pr : Sum String (List String)) (body : String) :
    run_stripped r { env with prefixes := pr } body = run_stripped r env body := by
  rcases env with ⟨pr0, bc, cr, ir⟩
  rfl

theorem run_located_snd (env : PipelineEnv) (ctx : Ctx) :
    (run_located env ctx).2
      = .ok (match (checks_and_invoke env ctx).2 with
             | .ok out => some out
             | .error _ => none) := by
  rcases h : checks_and_invoke env ctx with ⟨tr, res⟩
  rcases res with e | out <;> simp [run_located, h]

/-- C10: when `message.content` is not a string, `process_commands` returns
immediately: no event is emitted, the return value is the normal `None`, and
the result does not depend on the prefixes, checks or handler (so `get_prefix`
is never consulted) nor on the registry (no lookup happens). -/
theorem c10_non_string_content (r : Registry) (env : PipelineEnv) (tag : Nat) :
    process_commands r env (.nonText tag) = ([], .ok none) := rfl

/-- C6: `get_prefix` candidates: a single string acts as the one-element
list; the candidates are tried in the order given and the first one the
content starts with is selected — every earlier candidate does not match —
and exactly its length is stripped (content `p ++ rest` continues as `rest`);
when no candidate matches, `process_commands` returns quietly with no event
and no exception. -/
theorem c6_prefix_resolution (r : Registry) (env : PipelineEnv) (s q : String)
    (ps : List String) :
    (env.prefixes = .inl q →
        process_commands r env (.text s)
          = process_commands r { env with prefixes := .inr [q] } (.text s))
    ∧ (env.prefixes = .inr ps →
        ((prefixMatch ps s = none → process_commands r env (.text s) = ([], .ok none))
         ∧ ∀ p rest, prefixMatch ps s = some p → s = p ++ rest →
             ((∃ i, i < ps.length ∧ ps.getD i "" = p
                 ∧ ∀ q' ∈ ps.take i, pyStartsWith s q' = false)
              ∧ pyStartsWith s p = true
              ∧ process_commands r env (.text s) = run_stripped r env rest))) := by
  constructor
  · intro h
    simp only [process_commands, prefixList, h]
    rcases hm : prefixMatch [q] s with _ | p
    · rfl
    · exact (run_stripped_prefixes_irrel r env (.inr [q]) _).symm
  · intro h
    constructor
    · intro hnone
      simp [process_commands, prefixList, h, hnone]
    · intro p rest hsome hsplit
      obtain ⟨hstarts, hex⟩ := prefixMatch_some ps s p hsome
      refine ⟨hex, hstarts, ?_⟩
      simp only [process_commands, prefixList, h, hsome]
      rw [hsplit, pyDrop_append]

theorem c6_prefix_resolution_witness :
    process_commands ⟨false, []⟩ ⟨.inr ["!", "?"], .ok true, .ok true, .ok 0⟩ (.text "!ping")
      = run_stripped ⟨false, []⟩ ⟨.inr ["!", "?"], .ok true, .ok true, .ok 0⟩ "ping"
    ∧ pyStartsWith "!ping" "!" = true := by
  have h := (c6_prefix_resolution ⟨false, []⟩ ⟨.inr ["!", "?"], .ok true, .ok true, .ok 0⟩
      "!ping" "" ["!", "?"]).2 rfl
  have h2 := h.2 "!" "ping" (by decide) (by decide)
  exact ⟨h2.2.2, h2.2.1⟩

/-- C5: when the extracted command token matches no registry key, the
`except KeyError` branch runs: exactly one event is emitted — a
`command_error` dispatch carrying `CommandNotFound` on a context bound to no
command — no per-command error handler is called, no handler is invoked, and
`process_commands` returns normally (`Except.ok`, nothing raised). -/
theorem c5_command_not_found (r : Registry) (env : PipelineEnv)
    (s p w vrest : String)
    (hm : prefixMatch (prefixList env.prefixes) s = some p)
    (hbody : (pyDrop s (pyLen p)).data.isEmpty = false)
    (hw : get_next_word (pyDrop s (pyLen p)) = some (w, vrest))
    (hmiss : get_command r w = none) :
    process_commands r env (.text s)
      = ([.commandErrorDispatch ⟨none, w, vrest⟩ (.commandNotFound w)], .ok none)
    ∧ (∀ c e, Event.errorHandlerCalled c e ∉ (process_commands r env (.text s)).1)
    ∧ (∀ c, Event.handlerInvoked c ∉ (process_commands r env (.text s)).1) := by
  have hrun : process_commands r env (.text s)
      = ([.commandErrorDispatch ⟨none, w, vrest⟩ (.commandNotFound w)], .ok none) := by
    simp [process_commands, run_stripped, hm, hbody, hw, hmiss]
  refine ⟨hrun, ?_, ?_⟩
  · intro c e
    rw [hrun]
    simp
  · intro c
    rw [hrun]
    simp

theorem c5_command_not_found_witness :
    process_commands ⟨false, []⟩ ⟨.inr ["!"], .ok true, .ok true, .ok 0⟩ (.text "!pong")
      = ([.commandErrorDispatch ⟨none, "pong", ""⟩ (.commandNotFound "pong")], .ok none) :=
  (c5_command_not_found ⟨false, []⟩ ⟨.inr ["!"], .ok true, .ok true, .ok 0⟩
    "!pong" "!" "pong" "" (by decide) (by decide) (by decide) (by decide)).1

/-- C4: once a command is located, every exception from the global check,
the command's own checks, or the handler is caught inside
`process_commands`: the run's return value is always a normal `Except.ok`
(nothing propagates), and on each failure the trace is exactly
`dispatch("command")`, then the command's error handler, then the generic
`command_error` dispatch — with a failing global check raising `CheckError`
before the handler runs, so the handler is never invoked (similarly for the
command checks); only when the handler itself raises does `handlerInvoked`
appear, still followed by the error route. -/
theorem c4_pipeline_error_route (r : Registry) (env : PipelineEnv)
    (s p w vrest : String) (cmd : Command)
    (hm : prefixMatch (prefixList env.prefixes) s = some p)
    (hbody : (pyDrop s (pyLen p)).data.isEmpty = false)
    (hw : get_next_word (pyDrop s (pyLen p)) = some (w, vrest))
    (hcmd : get_command r w = some cmd) :
    (∃ v, (process_commands r env (.text s)).2 = Except.ok v)
    ∧ (env.botCheck = .ok false →
        process_commands r env (.text s)
          = ([.commandDispatch ⟨some cmd, w, vrest⟩,
              .errorHandlerCalled ⟨some cmd, w, vrest⟩
                (.checkError "the global check for the command failed"),
              .commandErrorDispatch ⟨some cmd, w, vrest⟩
                (.checkError "the global check for the command failed")], .ok none)
          ∧ ∀ c, Event.handlerInvoked c ∉ (process_commands r env (.text s)).1)
    ∧ (∀ e, env.botCheck = .error e →
        process_commands r env (.text s)
          = ([.commandDispatch ⟨some cmd, w, vrest⟩,
              .errorHandlerCalled ⟨some cmd, w, vrest⟩ e,
              .commandErrorDispatch ⟨some cmd, w, vrest⟩ e], .ok none))
    ∧ (env.botCheck = .ok true → env.canRun = .ok false →
        process_commands r env (.text s)
          = ([.commandDispatch ⟨some cmd, w, vrest⟩,
              .errorHandlerCalled ⟨some cmd, w, vrest⟩
                (.checkError "the check(s) for the command failed"),
              .commandErrorDispatch ⟨some cmd, w, vrest⟩
                (.checkError "the check(s) for the command failed")], .ok none)
          ∧ ∀ c, Event.handlerInvoked c ∉ (process_commands r env (.text s)).1)
    ∧ (∀ e, env.botCheck = .ok true → env.canRun = .error e →
        process_commands r env (.text s)
          = ([.commandDispatch ⟨some cmd, w, vrest⟩,
              .errorHandlerCalled ⟨some cmd, w, vrest⟩ e,
              .commandErrorDispatch ⟨some cmd, w, vrest⟩ e], .ok none))
    ∧ (∀ e, env.botCheck = .ok true → env.canRun = .ok true → env.invokeResult = .error e →
        process_commands r env (.text s)
          = ([.commandDispatch ⟨some cmd, w, vrest⟩,
              .handlerInvoked ⟨some cmd, w, vrest⟩,
              .errorHandlerCalled ⟨some cmd, w, vrest⟩ e,
              .commandErrorDispatch ⟨some cmd, w, vrest⟩ e], .ok none)) := by
  have hrun : process_commands r env (.text s)
      = run_located env ⟨some cmd, w, vrest⟩ := by
    simp [process_commands, run_stripped, hm, hbody, hw, hcmd]
  refine ⟨?_, ?_, ?_, ?_, ?_, ?_⟩
  · rw [hrun, run_located_snd]
    exact ⟨_, rfl⟩
  · intro hbc
    rw [hrun]
    constructor
    · simp [run_located, checks_and_invoke, hbc]
    · intro c
      simp [run_located, checks_and_invoke, hbc]
  · intro e hbc
    rw [hrun]
    simp [run_located, checks_and_invoke, hbc]
  · intro hbc hcr
    rw [hrun]
    constructor
    · simp [run_located, checks_and_invoke, hbc, hcr]
    · intro c
      simp [run_located, checks_and_invoke, hbc, hcr]
  · intro e hbc hcr
    rw [hrun]
    simp [run_located, checks_and_invoke, hbc, hcr]
  · intro e hbc hcr hir
    rw [hrun]
    simp [run_located, checks_and_invoke, hbc, hcr, hir]

theorem c4_pipeline_error_route_witness :
    process_commands (add_command ⟨false, []⟩ ⟨1, "ping", []⟩)
        ⟨.inr ["!"], .ok false, .ok true, .ok 0⟩ (.text "!ping")
      = ([.commandDispatch ⟨some ⟨1, "ping", []⟩, "ping", ""⟩,
          .errorHandlerCalled ⟨some ⟨1, "ping", []⟩, "ping", ""⟩
            (.checkError "the global check for the command failed"),
          .commandErrorDispatch ⟨some ⟨1, "ping", []⟩, "ping", ""⟩
            (.checkError "the global check for the command failed")], .ok none) :=
  ((c4_pipeline_error_route (add_command ⟨false, []⟩ ⟨1, "ping", []⟩)
      ⟨.inr ["!"], .ok false, .ok true, .ok 0⟩ "!ping" "!" "ping" "" ⟨1, "ping", []⟩
      (by decide) (by decide) (by decide) (by decide)).2.1 rfl).1

/-- The configured help command (`HelpCommand` from help.py is a
collaborator): either the framework's default (`DefaultHelpCommand()`) or a
caller-supplied custom instance, tagged by identity. -/
inductive HelpCommand where
  | defaultHelp
  | custom (id : Nat)
deriving DecidableEq, Repr

/-- An extension unit (the module object returned by `import_module`): the
`runtime_checkable` `ExtensionProtocol` `isinstance` test checks whether a
`setup` attribute is present; `setup(client)` is expected to register
commands — modelled from the spec ("setup … is expected to perform
add_cog/add_command calls as a side effect") as the list of commands it
registers. -/
structure Extension where
  has_setup : Bool
  setup_commands : List Command
deriving DecidableEq, Repr

/-- The mutable state of a `CommandsClient` that the claims observe:
`all_commands`, the cog table (cog objects from cog.py are opaque here), the
extension table and the configured help command. -/
structure ClientState where
  all_commands : Registry
  cogs : List (String × Nat)
  extensions : List (String × Extension)
  help_command : HelpCommand
deriving DecidableEq, Repr

/-- `CommandsClient.load_extension`: `import_module(name)` (failure modelled
as `importError`); if the unit is not an `ExtensionProtocol` instance (no
`setup` attribute) raise `MissingSetup` — before anything is recorded; else
record it in `self.extensions[name]` and then run `extension.setup(self)`,
whose registrations land in `all_commands`.  Returns the state after the
call together with the raised exception, if any. -/
def load_extension (modules : String → Option Extension) (c : ClientState)
    (name : String) : ClientState × Option PyError :=
  match modules name with
  | none => (c, some (.importError name))
  | some ext =>
      if ext.has_setup then
        let c1 := { c with extensions := dictSet c.extensions name ext }
        ({ c1 with
            all_commands := ext.setup_commands.foldl add_command c1.all_commands }, none)
      else
        (c, some (.missingSetup name))

/-- Modelled from the spec: `HelpCommandImpl` (help.py, not under src), the
built-in command object wrapping the configured help command, registered by
`CommandsClient.__init__` via `add_command`.  The claims only need it to be
one fixed command object. -/
def help_command_impl : Command := ⟨0, "help", []⟩

/-- `CommandsClient.__init__`: build `all_commands` (a `CaseInsensitiveDict`
when `case_insensitive` is set), seed it from the discovered `_commands`
(name first, then each alias — the body of `add_command`), rebind the local
`help_command` parameter to a fresh default when `None` was passed (the
rebound local is never read again), set `self.help_command` to a freshly
constructed `DefaultHelpCommand()` unconditionally, and register the
`HelpCommandImpl` command. -/
def client_init (type_commands : List Command) (help_command_arg : Option HelpCommand)
    (case_insensitive : Bool) : ClientState :=
  let r1 := seed_commands ⟨case_insensitive, []⟩ type_commands
  let _help_command_local : HelpCommand :=
    match help_command_arg with
    | none => HelpCommand.defaultHelp
    | some h => h
  { all_commands := add_command r1 help_command_impl
    cogs := []
    extensions := []
    help_command := HelpCommand.defaultHelp }

/-- C7: loading an extension unit that lacks a `setup` entry point raises
`MissingSetup` and leaves the whole client state unchanged — in particular
the extension table does not record the unit and no setup side effect
reaches the registry (the `raise` happens before the table write and before
`setup` would run). -/
theorem c7_missing_setup (modules : String → Option Extension) (c : ClientState)
    (name : String) (ext : Extension)
    (himp : modules name = some ext) (hsetup : ext.has_setup = false) :
    load_extension modules c name = (c, some (.missingSetup name))
    ∧ (load_extension modules c name).1.extensions = c.extensions
    ∧ (load_extension modules c name).1.all_commands = c.all_commands
    ∧ (load_extension modules c name).2 = some (.missingSetup name) := by
  have h : load_extension modules c name = (c, some (.missingSetup name)) := by
    simp [load_extension, himp, hsetup]
  exact ⟨h, by rw [h], by rw [h], by rw [h]⟩

theorem c7_missing_setup_witness :
    load_extension (fun n => if n = "badext" then some ⟨false, []⟩ else none)
        ⟨⟨false, []⟩, [], [], .defaultHelp⟩ "badext"
      = (⟨⟨false, []⟩, [], [], .defaultHelp⟩, some (.missingSetup "badext")) :=
  (c7_missing_setup (fun n => if n = "badext" then some ⟨false, []⟩ else none)
    ⟨⟨false, []⟩, [], [], .defaultHelp⟩ "badext" ⟨false, []⟩ (by decide) rfl).1

/-- C9: whatever `help_command` argument the constructor receives — `None`
or a caller-supplied custom instance — the constructed client's
`help_command` field is the freshly constructed default: the whole resulting
state does not depend on the argument, the field is the default help
command, and a supplied custom instance is never the stored one. -/
theorem c9_help_command_ignored (type_commands : List Command)
    (a₁ a₂ : Option HelpCommand) (ci : Bool) :
    client_init type_commands a₁ ci = client_init type_commands a₂ ci
    ∧ (client_init type_commands a₁ ci).help_command = HelpCommand.defaultHelp
    ∧ ∀ i, (client_init type_commands (some (.custom i)) ci).help_command
        ≠ HelpCommand.custom i := by
  refine ⟨rfl, rfl, ?_⟩
  intro i
  simp [client_init]
